import Mathlib

/-!
Shallow embedding of the `ubiquant_market_prediction` repository
(`preprocessing.py` and `nn_commons.py`).

Modelling conventions:

* Numpy float values are modelled as `Option ℚ`: `none` is NaN, `some q` a
  finite value.  IEEE comparisons against NaN are false, so the numpy mask
  assignments `y[y > hi] = hi` and `y[y < lo] = lo` leave NaN entries
  untouched; the embedding mirrors this (`Option.map` skips `none`).
* A 2-D numpy array is a list of rows, a 3-D (sample, time, feature)
  tensor a list of (time, feature) matrices.  Shape assumptions
  (rectangularity) appear as hypotheses of the theorems.
* Fitted sklearn scalers of the linear families used by this code
  transform each feature column by an affine map `a*x + b`; the fitted
  state is the per-column list of `(a, b)` pairs.  `transform` on a
  column-count mismatch raises in sklearn; the mismatch never occurs in
  the properties below, which carry matching-width hypotheses.
* Mutation of caller-supplied buffers is modelled by returning, next to a
  function's value, the post-call contents of those buffers.
-/

/-- A numpy float value: `none` is NaN. -/
abbrev Val := Option ℚ

/-- A 2-D numpy array as a list of rows. -/
abbrev Mat := List (List Val)

/-- A 3-D (sample, time, feature) numpy tensor. -/
abbrev Tensor3 := List (List (List Val))

/-- Mask assignment `y[y > crop_high] = crop_high` (skipped when
`crop_high is None`); NaN entries compare false and are kept. -/
def cropHigh (hi : Option ℚ) (y : List Val) : List Val :=
  match hi with
  | none => y
  | some h => y.map (fun v => v.map (fun q => if h < q then h else q))

/-- Mask assignment `y[y < crop_low] = crop_low` (skipped when
`crop_low is None`); NaN entries compare false and are kept. -/
def cropLow (lo : Option ℚ) (y : List Val) : List Val :=
  match lo with
  | none => y
  | some l => y.map (fun v => v.map (fun q => if q < l then l else q))

/-- Target cropping exactly as `NaivePreprocessor.run_train` and
`TensorPreprocessor._run_data` perform it: the high clamp first, then the
low clamp. -/
def cropTargets (lo hi : Option ℚ) (y : List Val) : List Val :=
  cropLow lo (cropHigh hi y)

/-- The opposite clamp order (low first, then high); the code does not use
it, it only serves to compare the two orders. -/
def cropTargetsLowFirst (lo hi : Option ℚ) (y : List Val) : List Val :=
  cropHigh hi (cropLow lo y)

/-- Elementwise cropping of a 2-D target array (`_run_data`). -/
def crop2 (lo hi : Option ℚ) (y : Mat) : Mat :=
  y.map (cropTargets lo hi)

/-- Mask assignment `a[np.isnan(a)] = 0` on a 1-D array. -/
def fillNa1 (r : List Val) : List Val :=
  r.map (fun v => some (v.getD 0))

/-- Mask assignment `a[np.isnan(a)] = 0` on a 2-D array. -/
def fillNa2 (m : Mat) : Mat := m.map fillNa1

/-- Mask assignment `a[np.isnan(a)] = 0` on a 3-D tensor. -/
def fillNa3 (x : Tensor3) : Tensor3 := x.map fillNa2

/-- The non-NaN entries of a slice. -/
def presentVals (l : List Val) : List ℚ := l.filterMap id

/-- np.nanmean over a slice: the mean of non-NaN entries, NaN when the
slice has no non-NaN entry. -/
def nanmean (l : List Val) : Val :=
  let v := presentVals l
  if v.length = 0 then none else some (v.sum / v.length)

/-- Population variance of the non-NaN entries (the square of np.nanstd,
which uses ddof = 0). -/
def nanvar (l : List Val) : Val :=
  let v := presentVals l
  if v.length = 0 then none
  else some (((v.map (fun q => (q - v.sum / v.length) ^ 2)).sum) / v.length)

/-- np.nanstd is the square root of `nanvar`.  Square roots leave ℚ, so
the embedding keeps the square root abstract as a parameter `sqrtFn`; no
property below depends on its value. -/
def nanstd (sqrtFn : ℚ → ℚ) (l : List Val) : Val :=
  (nanvar l).map sqrtFn

/-- Pandas sample standard deviation (ddof = 1, skipna): NaN on fewer than
two non-NaN entries, else `sqrtFn` of the sample variance. -/
def sampleStd (sqrtFn : ℚ → ℚ) (l : List Val) : Val :=
  let v := presentVals l
  if v.length ≤ 1 then none
  else some (sqrtFn ((v.map (fun q => (q - v.sum / v.length) ^ 2)).sum /
    ((v.length : ℚ) - 1)))

/-- One fitted affine scaler component applied to one value: `a*x + b`
(NaN propagates). -/
def affOpt (p : ℚ × ℚ) (v : Val) : Val :=
  v.map (fun q => p.1 * q + p.2)

/-- The inverse of `affOpt`: `(x - b) / a`. -/
def invAffOpt (p : ℚ × ℚ) (v : Val) : Val :=
  v.map (fun q => (q - p.2) / p.1)

/-- Fitted sklearn `transform` on a 2-D array: column `j` is mapped by the
affine pair `ps[j]`.  (sklearn raises on a column-count mismatch; the
embedding truncates, and all uses below carry matching-width hypotheses.) -/
def transform2 (ps : List (ℚ × ℚ)) (m : Mat) : Mat :=
  m.map (fun r => List.zipWith affOpt ps r)

/-- Fitted sklearn `inverse_transform` on a 2-D array. -/
def inverse2 (ps : List (ℚ × ℚ)) (m : Mat) : Mat :=
  m.map (fun r => List.zipWith invAffOpt ps r)

/-- Modelled from the spec: the sklearn scaler classes named by
`scaler_features`/`scaler_targets` are external to src/.  The spec calls
for a linear (per-feature affine) scaler family fit on 2-D data; modelled
as a MaxAbs-like fit, scaling each column by its largest absolute
non-NaN value (scale 1 for an all-NaN or all-zero column). -/
def famFitCol (col : List Val) : ℚ × ℚ :=
  let m := ((presentVals col).map (fun q => |q|)).foldr max 0
  (if m = 0 then 1 else 1 / m, 0)

/-- Modelled from the spec: per-column fit of the linear scaler family on
a 2-D array (one affine pair per column). -/
def famFitFeat (d : Mat) : List (ℚ × ℚ) :=
  (List.range (d.headI).length).map
    (fun j => famFitCol (d.map (fun r => r.getD j none)))

/-- Modelled from the spec: fit of the target scaler on a single column. -/
def famFitTarg (l : List Val) : ℚ × ℚ := famFitCol l

example : cropTargets (some (-1)) (some 1) [some (-5), some 0, some 5] =
    [some (-1), some 0, some 1] := by decide

example : nanmean [some 1, none, some 3] = some 2 := by
  norm_num [nanmean, presentVals, List.filterMap_cons]

/-!
`TensorPreprocessor` configuration and the `TimeSeriesTensorScaler` it
owns.  `scaler_fit_sample` is modelled as `None` (its non-`None` branch
draws a random subsample with `np.random.choice`, which none of the
verified properties involve).
-/

/-- Construction-time configuration of `TensorPreprocessor` together with
its `TimeSeriesTensorScaler`: `hasFeat`/`hasTarg` record whether
`scaler_features`/`scaler_targets` name a scaler class. -/
structure TPCfg where
  fillNaTarget : Bool
  cropLow : Option ℚ
  cropHigh : Option ℚ
  timeIdx : List ℕ
  hasFeat : Bool
  hasTarg : Bool
  sqrtFn : ℚ → ℚ

/-- Mutable state of the `TimeSeriesTensorScaler`: the fitted per-column
parameters, plus a log of the data each `fit` call received (newest
first), which makes fit effects observable in the embedding. -/
structure TPState where
  featP : List (ℚ × ℚ)
  targP : ℚ × ℚ
  featFitLog : List Mat
  targFitLog : List (List Val)

/-- Reshape `features.reshape(-1, features.shape[2])`: all (sample, time)
rows stacked. -/
def reshapeFeat (x : Tensor3) : Mat := x.flatten

/-- Reshape `targets.reshape(-1, 1)` viewed as the single column. -/
def reshapeTarg (y : Mat) : List Val := y.flatten

/-- TimeSeriesTensorScaler.fit: fit the feature scaler on the flattened
(sample·time, feature) rows and the target scaler on the flattened
target column, when configured. -/
def tsFit (cfg : TPCfg) (st : TPState) (x : Tensor3) (y : Mat) : TPState :=
  let st1 :=
    if cfg.hasFeat then
      { st with featP := famFitFeat (reshapeFeat x),
                featFitLog := reshapeFeat x :: st.featFitLog }
    else st
  if cfg.hasTarg then
    { st1 with targP := famFitTarg (reshapeTarg y),
               targFitLog := reshapeTarg y :: st1.targFitLog }
  else st1

/-- Transpose `(1, T) → (T, 1)`: the `targets[i:i+1].transpose(1, 0)`
step, with the length-1 leading axis elided. -/
def colOfRow (r : List Val) : Mat := r.map (fun v => [v])

/-- Transpose `(T, 1) → (1, T)`, returning the single row. -/
def rowOfCol (m : Mat) : List Val := m.map (fun c => c.headI)

/-- One iteration of the target loop in TimeSeriesTensorScaler.transform:
row `i` is transposed to a `(T, 1)` column, transformed by the
single-column target scaler, and transposed back. -/
def targRowTransform (p : ℚ × ℚ) (r : List Val) : List Val :=
  rowOfCol (transform2 [p] (colOfRow r))

/-- Feature half of TimeSeriesTensorScaler.transform: each sample slice
`features[i]` (a (time, feature) matrix) goes through the fitted feature
scaler; without a configured feature scaler the copy is returned. -/
def tsTransformFeat (cfg : TPCfg) (st : TPState) (x : Tensor3) : Tensor3 :=
  if cfg.hasFeat then x.map (fun s => transform2 st.featP s) else x

/-- Target half of TimeSeriesTensorScaler.transform on a 2-D (sample,
time) target array. -/
def tsTransformTarg (cfg : TPCfg) (st : TPState) (y : Mat) : Mat :=
  if cfg.hasTarg then y.map (fun r => targRowTransform st.targP r) else y

/-- A numpy array that is either 1-D or 2-D, the shapes reaching
`transform`'s target branch and `inverse_transform`. -/
inductive Arr where
  | one : List Val → Arr
  | two : Mat → Arr
deriving DecidableEq

/-- Target branch of TimeSeriesTensorScaler.transform at array level.  On
a nonempty 1-D target array with a configured target scaler the loop body
evaluates `targets[0:1].transpose(1, 0)` on a 1-D slice, which raises
`ValueError: axes don't match array`; modelled as `none`.  (With no
target scaler, or a 1-D array of length 0, the loop never transforms and
the copy is returned.) -/
def tsTransformTargArr (cfg : TPCfg) (st : TPState) : Arr → Option Arr
  | Arr.one l => if cfg.hasTarg ∧ l ≠ [] then none else some (Arr.one l)
  | Arr.two m => some (Arr.two (tsTransformTarg cfg st m))

/-- TimeSeriesTensorScaler.inverse_transform: asserts the input is 1-D or
has second dimension 1 (`none` = AssertionError, propagated to the
caller); then returns the input unchanged when no target scaler is
configured, else reshapes to a column, applies the fitted scaler's
inverse, and reshapes back to the original shape. -/
def tsInverseTransform (cfg : TPCfg) (st : TPState) : Arr → Option Arr
  | Arr.one l =>
      some (Arr.one (if cfg.hasTarg then l.map (invAffOpt st.targP) else l))
  | Arr.two m =>
      if (m.headI).length = 1 then
        some (Arr.two
          (if cfg.hasTarg then m.map (fun r => r.map (invAffOpt st.targP))
           else m))
      else none

/-!
The `TensorPreprocessor` pipeline.
-/

/-- Per-timestep cross-sample profile of the selected feature columns:
entry `(t, j)` aggregates `x[:, t, idx[j]]` with `f` (np.nanmean or
np.nanstd over axis 0).  `T` is `x.shape[1]`, read off the first sample. -/
def timeProfile (f : List Val → Val) (idx : List ℕ) (x : Tensor3) : Mat :=
  (List.range (x.headI).length).map (fun t =>
    idx.map (fun j => f (x.map (fun s => (s.getD t []).getD j none))))

/-- TensorPreprocessor._add_time_features: with a nonempty
`time_id_features_idx`, the per-timestep nanmean and nanstd profiles of
the selected columns are broadcast over the sample axis and concatenated
onto the feature axis. -/
def addTimeFeaturesT (cfg : TPCfg) (x : Tensor3) : Tensor3 :=
  if cfg.timeIdx = [] then x
  else
    let tm := timeProfile nanmean cfg.timeIdx x
    let ts := timeProfile (nanstd cfg.sqrtFn) cfg.timeIdx x
    x.map (fun s =>
      List.zipWith (fun r mr => r ++ mr) (List.zipWith (fun r mr => r ++ mr) s tm) ts)

/-- Value computed by TensorPreprocessor._run_data: time features, then
NaN zero-fill of the features, optional NaN zero-fill of the targets,
then the high and low target crops. -/
def runDataVal (cfg : TPCfg) (x : Tensor3) (y : Mat) : Tensor3 × Mat :=
  let x1 := addTimeFeaturesT cfg x
  let x2 := fillNa3 x1
  let y1 := if cfg.fillNaTarget then fillNa2 y else y
  let y2 := crop2 cfg.cropLow cfg.cropHigh y1
  (x2, y2)

/-- Caller-visible contents of the `x` and `y` buffers after `_run_data`.
With `copy=True` all mutations hit fresh copies.  With `copy=False` the
NaN zero-fill hits the caller's `x` exactly when no time features are
configured (otherwise `_add_time_features` rebinds `x` to a fresh
concatenated array first), and the target zero-fill and crops always hit
the caller's `y` in place. -/
def runDataBufs (cfg : TPCfg) (x : Tensor3) (y : Mat) (copy : Bool) :
    Tensor3 × Mat :=
  if copy then (x, y)
  else ((if cfg.timeIdx = [] then fillNa3 x else x), (runDataVal cfg x y).2)

/-- TensorPreprocessor.run_train: `_run_data` with `copy=False`, then a
scaler fit on its outputs, then the transform.  Returns the outputs, the
scaler state after the call, and the caller's buffers after the call. -/
def tpRunTrain (cfg : TPCfg) (st : TPState) (x : Tensor3) (y : Mat) :
    (Tensor3 × Mat) × TPState × (Tensor3 × Mat) :=
  let xy := runDataVal cfg x y
  let st1 := tsFit cfg st xy.1 xy.2
  ((tsTransformFeat cfg st1 xy.1, tsTransformTarg cfg st1 xy.2), st1,
    runDataBufs cfg x y false)

/-- Outputs of TensorPreprocessor.run. -/
structure TPOut where
  xTrain : Tensor3
  xValid : Tensor3
  tTrain : List (List ℕ)
  tValid : List (List ℕ)
  yTrain : Mat
  yValid : Mat

/-- TensorPreprocessor.run: `_run_data` with `copy=True` on both splits, a
scaler fit on the processed training tensors only, the transform on both
splits, and synthetic per-timestep index arrays repeated over the sample
axis.  Returns the outputs, the scaler state, and the caller's train and
valid buffers after the call. -/
def tpRun (cfg : TPCfg) (st : TPState) (xt : Tensor3) (yt : Mat)
    (xv : Tensor3) (yv : Mat) :
    TPOut × TPState × ((Tensor3 × Mat) × (Tensor3 × Mat)) :=
  let trn := runDataVal cfg xt yt
  let vld := runDataVal cfg xv yv
  let st1 := tsFit cfg st trn.1 trn.2
  let xtr := tsTransformFeat cfg st1 trn.1
  let ytr := tsTransformTarg cfg st1 trn.2
  let xvl := tsTransformFeat cfg st1 vld.1
  let yvl := tsTransformTarg cfg st1 vld.2
  (⟨xtr, xvl,
    List.replicate ytr.length (List.range (ytr.headI).length),
    List.replicate yvl.length (List.range (yvl.headI).length),
    ytr, yvl⟩, st1,
   (runDataBufs cfg xt yt true, runDataBufs cfg xv yv true))

/-- TensorPreprocessor.run_inference: zero-fill NaNs in place in the
caller's `x`, then apply the already-fit transform; no fit happens, so
the state is returned unchanged.  The third component is the caller's
`x` buffer after the call. -/
def tpRunInference (cfg : TPCfg) (st : TPState) (x : Tensor3) :
    Tensor3 × TPState × Tensor3 :=
  (tsTransformFeat cfg st (fillNa3 x), st, fillNa3 x)

/-!
The `NaivePreprocessor` pipeline over a dataframe model.

A dataframe is a list of rows presented column-wise.  `row_id` strings
have the form `"<time>_<stock>"` and `_run` only ever uses
`row_id.str.split("_", expand=True)[0].astype(int)`; the model stores
that integer first segment directly.  The `target` column is optional
(`_run` drops it only when present; `run_train` reading a missing target
column would raise, so the target theorems hypothesise its presence).
`df.target.values` and `df.time_id.values` are views into the dataframe's
own storage, so in-place writes through them mutate the dataframe; the
embedding returns the post-call dataframe next to each result.
-/

/-- Dataframe model for `NaivePreprocessor`. -/
structure NDF where
  rowId : List ℤ
  hasTimeId : Bool
  timeId : List ℤ
  cols : List (String × List Val)
  target : Option (List Val)

/-- Construction-time configuration of `NaivePreprocessor`; `hasScaler`
records whether `scaler_features` names a scaler class. -/
structure NCfg where
  colsToDrop : List String
  cropLow : Option ℚ
  cropHigh : Option ℚ
  hasScaler : Bool
  timeIdFeatures : List String
  sqrtFn : ℚ → ℚ

/-- Mutable scaler state of `NaivePreprocessor`: fitted per-column
parameters plus the log of the data each fit received (newest first). -/
structure NState where
  featP : List (ℚ × ℚ)
  fitLog : List Mat

/-- The step `if "time_id" not in df: df["time_id"] = ...` of `_run`: it
derives `time_id` from `row_id` and writes the new column into the
caller's dataframe. -/
def ensureTimeId (df : NDF) : NDF :=
  if df.hasTimeId then df else { df with hasTimeId := true, timeId := df.rowId }

/-- Column lookup by name (a missing column would raise a KeyError; the
theorems using named columns hypothesise presence where it matters). -/
def lookupCol (df : NDF) (c : String) : List Val :=
  (df.cols.lookup c).getD []

/-- Values of `col` in the `time_id` group `t`. -/
def groupVals (tids : List ℤ) (col : List Val) (t : ℤ) : List Val :=
  (tids.zip col).filterMap (fun p => if p.1 = t then some p.2 else none)

/-- NaivePreprocessor._add_time_features: per-`time_id` grouped skipna
mean and sample standard deviation of the configured columns, merged back
onto every row of the same `time_id` as `time_mean_*`/`time_std_*`
columns (a merge within one dataframe always finds its group). -/
def addTimeFeaturesN (cfg : NCfg) (df : NDF) : NDF :=
  if cfg.timeIdFeatures = [] then df
  else
    let meanCols := cfg.timeIdFeatures.map (fun c =>
      ("time_mean_" ++ c,
        df.timeId.map (fun t => nanmean (groupVals df.timeId (lookupCol df c) t))))
    let stdCols := cfg.timeIdFeatures.map (fun c =>
      ("time_std_" ++ c,
        df.timeId.map (fun t =>
          sampleStd cfg.sqrtFn (groupVals df.timeId (lookupCol df c) t))))
    { df with cols := df.cols ++ meanCols ++ stdCols }

/-- The feature matrix `_run` keeps after dropping `row_id`, the
configured drop columns and `target`: the `time_id` column and the
remaining named columns, one row per dataframe row. -/
def naiveMatrix (cfg : NCfg) (df : NDF) : Mat :=
  let kept := df.cols.filter (fun p => ¬ cfg.colsToDrop.contains p.1)
  let named := ("time_id", df.timeId.map (fun t => some (t : ℚ))) :: kept
  (List.range df.timeId.length).map (fun i => named.map (fun c => (c.2).getD i none))

/-- NaivePreprocessor._run: ensure `time_id` (mutating the caller's
dataframe), add grouped time features, drop the non-feature columns, and
optionally fit (train only) and apply the feature scaler.  Returns the
feature matrix, the scaler state after the call, and the caller's
dataframe after the call. -/
def naiveRunCore (cfg : NCfg) (st : NState) (df : NDF) (fitScaler : Bool) :
    Mat × NState × NDF :=
  let df1 := ensureTimeId df
  let df2 := addTimeFeaturesN cfg df1
  let m := naiveMatrix cfg df2
  if cfg.hasScaler then
    let st1 := if fitScaler then { featP := famFitFeat m, fitLog := m :: st.fitLog }
               else st
    (transform2 st1.featP m, st1, df1)
  else (m, st, df1)

/-- NaivePreprocessor.run_train: `_run` with `fit_scaler=True`, then the
target column is extracted and clamped in place — `train_data.target.values`
is a view, so the clamps write back into the caller's dataframe. -/
def naiveRunTrain (cfg : NCfg) (st : NState) (df : NDF) :
    (Mat × List Val) × NState × NDF :=
  let r := naiveRunCore cfg st df true
  let yt := cropTargets cfg.cropLow cfg.cropHigh ((r.2.2).target.getD [])
  ((r.1, yt), r.2.1, { r.2.2 with target := some yt })

/-- NaivePreprocessor.run_inference: `_run` with the default
`fit_scaler=False`. -/
def naiveRunInference (cfg : NCfg) (st : NState) (df : NDF) :
    Mat × NState × NDF :=
  naiveRunCore cfg st df false

/-- Outputs of NaivePreprocessor.run. -/
structure NOut where
  xTrain : Mat
  xValid : Mat
  tTrain : List ℤ
  tValid : List ℤ
  yTrain : List Val
  yValid : List Val

/-- NaivePreprocessor.run: `run_train` on the training dataframe,
`run_inference` on the validation dataframe, then the `time_id` and
`target` columns are read from the (by now possibly mutated) dataframes.
Returns the outputs, the scaler state, and both caller dataframes after
the call. -/
def naiveRun (cfg : NCfg) (st : NState) (train valid : NDF) :
    NOut × NState × (NDF × NDF) :=
  let rt := naiveRunTrain cfg st train
  let rv := naiveRunInference cfg rt.2.1 valid
  let train1 := rt.2.2
  let valid1 := rv.2.2
  (⟨rt.1.1, rv.1, train1.timeId, valid1.timeId, rt.1.2, valid1.target.getD []⟩,
   rv.2.1, (train1, valid1))

/-!
`TimeSplitter` from `nn_commons.py`.
-/

/-- Python `range(start, stop, step)` for a positive step. -/
def pyRangeUp (start stop step : ℕ) : List ℕ :=
  if _h : 0 < step ∧ start < stop then start :: pyRangeUp (start + step) stop step
  else []
termination_by stop - start
decreasing_by omega

/-- The chunk list built by TimeSplitter.__init__: for each
`start_t in range(0, T, window_size)` the time slice
`a[:, start_t : start_t + window_size]`; `T` is `x.shape[1]`.  The same
starts slice both `x` (with `α` a feature row) and `y` (with `α` a single
value). -/
def timeChunks {α : Type} (a : List (List α)) (T W : ℕ) : List (List (List α)) :=
  (pyRangeUp 0 T W).map (fun s => a.map (fun r => (r.take (s + W)).drop s))

/-- np.concatenate along the time axis (axis 1) of a nonempty list of
equally-sampled chunks. -/
def timeConcat {α : Type} : List (List (List α)) → List (List α)
  | [] => []
  | [c] => c
  | c :: cs => List.zipWith (fun a b => a ++ b) c (timeConcat cs)

example : timeChunks [[1, 2, 3]] 3 2 = [[[1, 2]], [[3]]] := by
  simp [timeChunks, pyRangeUp]

example : timeConcat [[[1, 2]], [[3]]] = [[1, 2, 3]] := by
  simp [timeConcat]

/-!
Helper lemmas.
-/

lemma cropTargets_some_eq (lo hi : ℚ) (y : List Val) :
    cropTargets (some lo) (some hi) y =
      y.map (fun v => v.map (fun q =>
        if (if hi < q then hi else q) < lo then lo
        else if hi < q then hi else q)) := by
  simp only [cropTargets, cropLow, cropHigh, List.map_map]
  refine List.map_congr_left (fun v _ => ?_)
  cases v with
  | none => rfl
  | some q => rfl

lemma mem_cropTargets_bounds {lo hi : ℚ} (h : lo ≤ hi) {y : List Val} :
    ∀ v ∈ cropTargets (some lo) (some hi) y, ∀ q, v = some q → lo ≤ q ∧ q ≤ hi := by
  intro v hv q hq
  subst hq
  rw [cropTargets_some_eq] at hv
  simp only [List.mem_map] at hv
  obtain ⟨w, _, hval⟩ := hv
  cases w with
  | none => exact Option.noConfusion hval
  | some q0 =>
    simp only [Option.map_some', Option.some.injEq] at hval
    subst hval
    constructor <;> split_ifs <;> linarith

lemma naiveRunCore_df (cfg : NCfg) (st : NState) (df : NDF) (b : Bool) :
    (naiveRunCore cfg st df b).2.2 = ensureTimeId df := by
  unfold naiveRunCore
  split_ifs <;> rfl

lemma ensureTimeId_target (df : NDF) : (ensureTimeId df).target = df.target := by
  unfold ensureTimeId
  split <;> rfl

lemma naiveRunTrain_targets (cfg : NCfg) (st : NState) (df : NDF) :
    (naiveRunTrain cfg st df).1.2 =
      cropTargets cfg.cropLow cfg.cropHigh (df.target.getD []) := by
  show cropTargets cfg.cropLow cfg.cropHigh
      (((naiveRunCore cfg st df true).2.2).target.getD []) = _
  rw [naiveRunCore_df, ensureTimeId_target]

/-- Claim C1: with crop bounds `crop_low ≤ crop_high`, every value of the
target array returned after cropping — by `NaivePreprocessor.run_train`
on training targets and by `TensorPreprocessor._run_data` — lies in
`[crop_low, crop_high]`; in particular `crop_low = -1`, `crop_high = 1`
turn training targets `[-5, 0, 5]` into `[-1, 0, 1]`.  (A NaN entry
carries no rational value: IEEE comparisons with NaN are false, so both
masks leave it untouched; the bound is stated over the values the
entries hold.) -/
theorem C1_crop_bounds :
    (∀ lo hi : ℚ, lo ≤ hi →
      (∀ (cfg : NCfg) (st : NState) (df : NDF),
        cfg.cropLow = some lo → cfg.cropHigh = some hi →
        ∀ v ∈ (naiveRunTrain cfg st df).1.2, ∀ q : ℚ, v = some q →
          lo ≤ q ∧ q ≤ hi) ∧
      (∀ (cfg : TPCfg) (x : Tensor3) (y : Mat),
        cfg.cropLow = some lo → cfg.cropHigh = some hi →
        ∀ r ∈ (runDataVal cfg x y).2, ∀ v ∈ r, ∀ q : ℚ, v = some q →
          lo ≤ q ∧ q ≤ hi)) ∧
    (naiveRunTrain ⟨[], some (-1), some 1, false, [], id⟩ ⟨[], []⟩
        ⟨[0, 0, 0], true, [0, 0, 0], [], some [some (-5), some 0, some 5]⟩).1.2 =
      [some (-1), some 0, some 1] := by
  refine ⟨fun lo hi h => ⟨?_, ?_⟩, ?_⟩
  · intro cfg st df hlo hhi v hv q hq
    rw [naiveRunTrain_targets, hlo, hhi] at hv
    exact mem_cropTargets_bounds h v hv q hq
  · intro cfg x y hlo hhi r hr v hv q hq
    have hr2 : r ∈ crop2 cfg.cropLow cfg.cropHigh
        (if cfg.fillNaTarget then fillNa2 y else y) := hr
    simp only [crop2, List.mem_map] at hr2
    obtain ⟨row, _, rfl⟩ := hr2
    rw [hlo, hhi] at hv
    exact mem_cropTargets_bounds h v hv q hq
  · rw [naiveRunTrain_targets]
    decide

/-- Concrete instantiation of `C1_crop_bounds`: cropping to `[-1, 1]`
leaves the value `0` inside the bounds. -/
theorem C1_crop_bounds_witness : (-1 : ℚ) ≤ 0 ∧ (0 : ℚ) ≤ 1 :=
  (C1_crop_bounds.1 (-1) 1 (by norm_num)).1
    ⟨[], some (-1), some 1, false, [], id⟩ ⟨[], []⟩
    ⟨[0, 0, 0], true, [0, 0, 0], [], some [some (-5), some 0, some 5]⟩
    rfl rfl (some 0) (by rw [naiveRunTrain_targets]; decide) 0 rfl

lemma cropTargetsLowFirst_some_eq (lo hi : ℚ) (y : List Val) :
    cropTargetsLowFirst (some lo) (some hi) y =
      y.map (fun v => v.map (fun q =>
        if hi < (if q < lo then lo else q) then hi
        else if q < lo then lo else q)) := by
  simp only [cropTargetsLowFirst, cropLow, cropHigh, List.map_map]
  refine List.map_congr_left (fun v _ => ?_)
  cases v <;> rfl

/-- Claim C8: `NaivePreprocessor.run` returns the validation target
column unclamped, while the training targets it returns are the clamped
ones; the high clamp is applied before the low clamp, and with
`crop_low ≤ crop_high` the two clamp orders agree (order can only matter
for `crop_low > crop_high`). -/
theorem C8_naive_crops_train_only :
    (∀ (cfg : NCfg) (st : NState) (train valid : NDF) (vy : List Val),
      valid.target = some vy → (naiveRun cfg st train valid).1.yValid = vy) ∧
    (∀ (cfg : NCfg) (st : NState) (train valid : NDF) (ty : List Val),
      train.target = some ty →
      (naiveRun cfg st train valid).1.yTrain =
        cropLow cfg.cropLow (cropHigh cfg.cropHigh ty)) ∧
    (∀ lo hi : ℚ, lo ≤ hi → ∀ y : List Val,
      cropTargets (some lo) (some hi) y =
        cropTargetsLowFirst (some lo) (some hi) y) := by
  refine ⟨?_, ?_, ?_⟩
  · intro cfg st train valid vy hv
    show (((naiveRunInference cfg _ valid).2.2).target.getD []) = vy
    unfold naiveRunInference
    rw [naiveRunCore_df, ensureTimeId_target, hv]
    rfl
  · intro cfg st train valid ty ht
    show (naiveRunTrain cfg st train).1.2 = _
    rw [naiveRunTrain_targets, ht]
    rfl
  · intro lo hi h y
    rw [cropTargets_some_eq, cropTargetsLowFirst_some_eq]
    refine List.map_congr_left (fun v _ => ?_)
    cases v with
    | none => rfl
    | some q =>
      simp only [Option.map_some', Option.some.injEq]
      split_ifs <;> linarith

/-- Concrete instantiation of `C8_naive_crops_train_only`: a validation
dataframe with target column `[7]` comes back unclamped even with crop
bounds `[-1, 1]`. -/
theorem C8_naive_crops_train_only_witness :
    (naiveRun ⟨[], some (-1), some 1, false, [], id⟩ ⟨[], []⟩
      ⟨[0], true, [0], [], some [some 7]⟩
      ⟨[0], true, [0], [], some [some 7]⟩).1.yValid = [some 7] :=
  C8_naive_crops_train_only.1
    ⟨[], some (-1), some 1, false, [], id⟩ ⟨[], []⟩
    ⟨[0], true, [0], [], some [some 7]⟩
    ⟨[0], true, [0], [], some [some 7]⟩ [some 7] rfl

lemma pyRangeUp_nil {start stop step : ℕ} (h : stop ≤ start) :
    pyRangeUp start stop step = [] := by
  rw [pyRangeUp]
  rw [dif_neg (by omega)]

lemma pyRangeUp_cons {start stop step : ℕ} (hs : 0 < step) (h : start < stop) :
    pyRangeUp start stop step = start :: pyRangeUp (start + step) stop step := by
  rw [pyRangeUp]
  rw [dif_pos ⟨hs, h⟩]

lemma pyRangeUp_length : ∀ start stop step : ℕ, 0 < step →
    (pyRangeUp start stop step).length = (stop - start + step - 1) / step := by
  intro start stop step
  induction start, stop, step using pyRangeUp.induct with
  | case1 s t p h ih =>
    intro hp
    rw [pyRangeUp_cons h.1 h.2, List.length_cons, ih hp]
    rcases le_or_lt (s + p) t with hle | hlt
    · have he : t - s + p - 1 = (t - (s + p) + p - 1) + p := by omega
      rw [he, Nat.add_div_right _ hp]
    · have h1 : t - (s + p) + p - 1 = p - 1 := by omega
      have h2 : (p - 1) / p = 0 := Nat.div_eq_of_lt (by omega)
      have h3 : (t - s + p - 1) / p = 1 := by
        apply Nat.div_eq_of_lt_le
        · omega
        · omega
      rw [h1, h2, h3]
  | case2 s t p h =>
    intro hp
    rw [pyRangeUp_nil (by omega), List.length_nil]
    have he : t - s = 0 := by omega
    rw [he]
    exact (Nat.div_eq_of_lt (by omega)).symm

lemma pyRangeUp_getD : ∀ start stop step : ℕ, 0 < step →
    ∀ i, i < (pyRangeUp start stop step).length →
    (pyRangeUp start stop step).getD i 0 = start + i * step := by
  intro start stop step
  induction start, stop, step using pyRangeUp.induct with
  | case1 s t p h ih =>
    intro hp i hi
    rw [pyRangeUp_cons h.1 h.2] at hi ⊢
    cases i with
    | zero => simp
    | succ n =>
      rw [List.getD_cons_succ, ih hp n (by simpa using Nat.lt_of_succ_lt_succ hi)]
      ring
  | case2 s t p h =>
    intro hp i hi
    rw [pyRangeUp_nil (by omega)] at hi
    simp at hi

lemma join_slices {α : Type} : ∀ start stop step : ℕ, 0 < step →
    ∀ r : List α, r.length = stop →
    ((pyRangeUp start stop step).map (fun i => (r.take (i + step)).drop i)).flatten
      = r.drop start := by
  intro start stop step
  induction start, stop, step using pyRangeUp.induct with
  | case1 s t p h ih =>
    intro hp r hr
    rw [pyRangeUp_cons h.1 h.2]
    simp only [List.map_cons, List.flatten_cons]
    rw [ih hp r hr]
    have h1 : (r.take (s + p)).drop s = (r.drop s).take p := by
      rw [List.drop_take]
      congr 1
      omega
    rw [h1, List.drop_take_append_drop]
  | case2 s t p h =>
    intro hp r hr
    rw [pyRangeUp_nil (by omega)]
    simp only [List.map_nil, List.flatten_nil]
    symm
    apply List.drop_eq_nil_of_le
    omega

lemma zipWith_self_map {α β : Type} (f : α → α → β) :
    ∀ l : List α, List.zipWith f l l = l.map (fun v => f v v) := by
  intro l
  induction l with
  | nil => rfl
  | cons v vs ih => simp [ih]

lemma timeConcat_map {α β : Type} (a : List β) (g : ℕ → β → List α) :
    ∀ ss : List ℕ, ss ≠ [] →
    timeConcat (ss.map (fun s => a.map (g s))) =
      a.map (fun r => (ss.map (fun s => g s r)).flatten) := by
  intro ss
  induction ss with
  | nil => intro h; exact absurd rfl h
  | cons s ss ih =>
    intro _
    cases ss with
    | nil => simp [timeConcat]
    | cons s2 ss2 =>
      rw [show timeConcat ((s :: s2 :: ss2).map (fun u => a.map (g u))) =
          List.zipWith (fun v w => v ++ w) (a.map (g s))
            (timeConcat ((s2 :: ss2).map (fun u => a.map (g u)))) from rfl]
      rw [ih (by simp)]
      rw [List.zipWith_map, zipWith_self_map]
      simp

lemma timeChunks_reconstruct {α : Type} (a : List (List α)) (T W : ℕ)
    (hW : 0 < W) (hT : 0 < T) (ha : ∀ r ∈ a, r.length = T) :
    timeConcat (timeChunks a T W) = a := by
  unfold timeChunks
  have hne : pyRangeUp 0 T W ≠ [] := by
    rw [pyRangeUp_cons hW hT]
    simp
  rw [timeConcat_map a (fun s r => (r.take (s + W)).drop s) _ hne]
  have h2 : a.map (fun r =>
      ((pyRangeUp 0 T W).map (fun s => (r.take (s + W)).drop s)).flatten) =
      a.map (fun r => r) :=
    List.map_congr_left (fun r hr => by
      simpa using join_slices 0 T W hW r (ha r hr))
  rw [h2, List.map_id']

lemma timeChunks_length {α : Type} (a : List (List α)) (T W : ℕ) (hW : 0 < W) :
    (timeChunks a T W).length = (T + W - 1) / W := by
  unfold timeChunks
  rw [List.length_map, pyRangeUp_length 0 T W hW, Nat.sub_zero]

lemma timeChunks_sizes {α : Type} (a : List (List α)) (T W : ℕ) (hW : 0 < W)
    (ha : ∀ r ∈ a, r.length = T) :
    ∀ i, i < (timeChunks a T W).length →
      ∀ r ∈ (timeChunks a T W).getD i [], r.length = min W (T - i * W) := by
  intro i hi r hr
  have hlen : i < (pyRangeUp 0 T W).length := by
    simpa [timeChunks] using hi
  have hlen2 : i < ((pyRangeUp 0 T W).map
      (fun s => a.map (fun row => (row.take (s + W)).drop s))).length := by
    simpa using hlen
  unfold timeChunks at hr
  rw [List.getD_eq_getElem _ _ hlen2, List.getElem_map] at hr
  simp only [List.mem_map] at hr
  obtain ⟨row, hrow, rfl⟩ := hr
  have hs : (pyRangeUp 0 T W)[i] = i * W := by
    rw [← List.getD_eq_getElem _ 0 hlen, pyRangeUp_getD 0 T W hW i hlen,
      Nat.zero_add]
  rw [hs, List.length_drop, List.length_take, ha row hrow]
  omega

/-- Claim C2: for a rectangular (N, T, F) tensor `x` with matching (N, T)
targets `y` and window `W ≥ 1`, `TimeSplitter` builds exactly
`⌈T / W⌉ = (T + W - 1) / W` chunks; chunk `i` has time-length
`min W (T - i*W)` (so `W` everywhere except a possibly shorter last
chunk), and concatenating the chunks in index order along the time axis
gives back `x` (and `y`) exactly. -/
theorem C2_timeSplitter_partition (x : Tensor3) (y : Mat) (T W : ℕ)
    (hW : 1 ≤ W) (hT : 0 < T)
    (hx : ∀ s ∈ x, s.length = T) (hy : ∀ r ∈ y, r.length = T) :
    (timeChunks x T W).length = (T + W - 1) / W ∧
    (timeChunks y T W).length = (T + W - 1) / W ∧
    (∀ i, i < (timeChunks x T W).length →
      (∀ r ∈ (timeChunks x T W).getD i [], r.length = min W (T - i * W)) ∧
      (∀ r ∈ (timeChunks y T W).getD i [], r.length = min W (T - i * W))) ∧
    timeConcat (timeChunks x T W) = x ∧
    timeConcat (timeChunks y T W) = y := by
  have hW0 : 0 < W := hW
  refine ⟨timeChunks_length x T W hW0, timeChunks_length y T W hW0,
    fun i hi => ⟨timeChunks_sizes x T W hW0 hx i hi,
      timeChunks_sizes y T W hW0 hy i (by
        rw [timeChunks_length y T W hW0]
        rw [timeChunks_length x T W hW0] at hi
        exact hi)⟩,
    timeChunks_reconstruct x T W hW0 hT hx,
    timeChunks_reconstruct y T W hW0 hT hy⟩

/-- Concrete instantiation of `C2_timeSplitter_partition`: T = 3, W = 2
gives two chunks whose concatenation restores the tensor and targets. -/
theorem C2_timeSplitter_partition_witness :
    (timeChunks ([[[some 1], [some 2], [some 3]]] : Tensor3) 3 2).length = 2 ∧
    timeConcat (timeChunks ([[[some 1], [some 2], [some 3]]] : Tensor3) 3 2) =
      [[[some 1], [some 2], [some 3]]] ∧
    timeConcat (timeChunks ([[some 1, some 2, some 3]] : Mat) 3 2) =
      [[some 1, some 2, some 3]] := by
  have h := C2_timeSplitter_partition [[[some 1], [some 2], [some 3]]]
    [[some 1, some 2, some 3]] 3 2 (by norm_num) (by norm_num)
    (by intro s hs; simp at hs; subst hs; rfl)
    (by intro r hr; simp at hr; subst hr; rfl)
  exact ⟨h.1, h.2.2.2.1, h.2.2.2.2⟩

/-!
Per-slice characterisations of TimeSeriesTensorScaler.transform.
-/

/-- The (sample, feature) slice of a 3-D tensor at timestep `t`. -/
def timeSlice (x : Tensor3) (t : ℕ) : Mat :=
  x.map (fun s => s.getD t [])

/-- Column `t` of a 2-D array. -/
def colAt (y : Mat) (t : ℕ) : List Val :=
  y.map (fun r => r.getD t none)

/-- The spec's description of the target scaling of one time-step column:
the column is viewed as a (N, 1) 2-D array, transformed by the fitted
single-column target scaler, and flattened back. -/
def specColTransform (p : ℚ × ℚ) (col : List Val) : List Val :=
  rowOfCol (transform2 [p] (colOfRow col))

lemma targRowTransform_eq_map (p : ℚ × ℚ) (r : List Val) :
    targRowTransform p r = r.map (affOpt p) := by
  induction r with
  | nil => rfl
  | cons v vs ih =>
    have h := congrArg (fun l => affOpt p v :: l) ih
    simp only [targRowTransform, colOfRow, rowOfCol, transform2, List.map_cons,
      List.zipWith_cons_cons, List.zipWith_nil_right, List.headI] at h ⊢
    exact h

lemma specColTransform_eq_map (p : ℚ × ℚ) (col : List Val) :
    specColTransform p col = col.map (affOpt p) :=
  targRowTransform_eq_map p col

lemma affOpt_getD_comm (p : ℚ × ℚ) (r : List Val) (t : ℕ) :
    (r.map (affOpt p)).getD t none = affOpt p (r.getD t none) := by
  rcases lt_or_le t r.length with h | h
  · rw [List.getD_eq_getElem _ _ (by simpa using h), List.getD_eq_getElem _ _ h,
      List.getElem_map]
  · rw [List.getD_eq_default _ _ (by simpa using h), List.getD_eq_default _ _ h]
    rfl

/-- Claim C5: the fitted feature scaler acts independently on each
time-step (sample, feature) slice — the slice at `t` of the transformed
tensor is the scaler applied to the slice at `t` of the input — and the
target scaler acts on each time-step column of the targets, via the
transpose-transform-transpose route. -/
theorem C5_transform_per_timestep :
    (∀ (cfg : TPCfg) (st : TPState), cfg.hasFeat = true →
      ∀ (x : Tensor3) (t : ℕ),
        timeSlice (tsTransformFeat cfg st x) t =
          transform2 st.featP (timeSlice x t)) ∧
    (∀ (cfg : TPCfg) (st : TPState), cfg.hasTarg = true →
      ∀ (y : Mat) (t : ℕ),
        colAt (tsTransformTarg cfg st y) t =
          specColTransform st.targP (colAt y t)) := by
  constructor
  · intro cfg st hf x t
    simp only [tsTransformFeat, hf, if_true, timeSlice, transform2, List.map_map]
    refine List.map_congr_left (fun s _ => ?_)
    simp only [Function.comp]
    rcases lt_or_le t s.length with h | h
    · rw [List.getD_eq_getElem _ _ (by simpa using h), List.getD_eq_getElem _ _ h,
        List.getElem_map]
    · rw [List.getD_eq_default _ _ (by simpa using h), List.getD_eq_default _ _ h]
      exact (List.zipWith_nil_right ..).symm
  · intro cfg st ht y t
    simp only [tsTransformTarg, ht, if_true, colAt, specColTransform_eq_map,
      List.map_map]
    refine List.map_congr_left (fun r _ => ?_)
    simp only [Function.comp]
    rw [targRowTransform_eq_map, affOpt_getD_comm]

/-- Concrete instantiation of `C5_transform_per_timestep` at a 1-sample,
2-timestep tensor and timestep 0. -/
theorem C5_transform_per_timestep_witness :
    timeSlice (tsTransformFeat ⟨true, none, none, [], true, true, id⟩
      ⟨[(2, 1)], (1, 0), [], []⟩ [[[some 3], [some 4]]]) 0 =
      transform2 [(2, 1)] (timeSlice [[[some 3], [some 4]]] 0) :=
  C5_transform_per_timestep.1 ⟨true, none, none, [], true, true, id⟩
    ⟨[(2, 1)], (1, 0), [], []⟩ rfl [[[some 3], [some 4]]] 0

/-- Claim C9: `TimeSeriesTensorScaler.inverse_transform` is defined
exactly on 1-D arrays and arrays of second dimension 1: it reshapes to a
column, applies the target scaler's inverse (the identity when no target
scaler is configured), and returns the original shape; on a nonempty
array of two or more dimensions whose second dimension is not 1 the
leading assertion fails (`none`) and propagates to the caller — the
function only reads the scaler state, so no state changes. -/
theorem C9_inverse_transform_domain :
    (∀ (cfg : TPCfg) (st : TPState) (l : List Val),
      tsInverseTransform cfg st (Arr.one l) =
        some (Arr.one (if cfg.hasTarg then l.map (invAffOpt st.targP) else l))) ∧
    (∀ (cfg : TPCfg) (st : TPState) (m : Mat), m ≠ [] →
      (∀ r ∈ m, r.length = 1) →
      tsInverseTransform cfg st (Arr.two m) =
        some (Arr.two (if cfg.hasTarg then
          m.map (fun r => r.map (invAffOpt st.targP)) else m))) ∧
    (∀ (cfg : TPCfg) (st : TPState) (m : Mat) (w : ℕ), w ≠ 1 → m ≠ [] →
      (∀ r ∈ m, r.length = w) →
      tsInverseTransform cfg st (Arr.two m) = none) := by
  refine ⟨fun cfg st l => rfl, ?_, ?_⟩
  · intro cfg st m hne hrect
    cases m with
    | nil => exact absurd rfl hne
    | cons r rs =>
      have h1 : r.length = 1 := hrect r (by simp)
      simp [tsInverseTransform, h1]
  · intro cfg st m w hw hne hrect
    cases m with
    | nil => exact absurd rfl hne
    | cons r rs =>
      have h1 : r.length = w := hrect r (by simp)
      simp [tsInverseTransform, h1, hw]

/-- Concrete instantiation of `C9_inverse_transform_domain`: a 1×2 target
array fails the assertion. -/
theorem C9_inverse_transform_domain_witness :
    tsInverseTransform ⟨true, none, none, [], false, true, id⟩
      ⟨[], (1, 0), [], []⟩ (Arr.two [[some 0, some 0]]) = none :=
  C9_inverse_transform_domain.2.2 ⟨true, none, none, [], false, true, id⟩
    ⟨[], (1, 0), [], []⟩ [[some 0, some 0]] 2 (by norm_num) (by simp)
    (by decide)

/-- Claim C3 as stated is false for 1-D arrays: with a configured target
scaler, `transform` on a nonempty 1-D targets array evaluates
`targets[0:1].transpose(1, 0)` on a 1-D slice and raises, so the round
trip never returns the input. -/
theorem C3_roundtrip_counterexample :
    ¬ ((tsTransformTargArr ⟨true, none, none, [], false, true, id⟩
          ⟨[], (1, 0), [], []⟩ (Arr.one [some 0])).bind
        (tsInverseTransform ⟨true, none, none, [], false, true, id⟩
          ⟨[], (1, 0), [], []⟩) =
      some (Arr.one [some 0])) := by decide

lemma invAffOpt_affOpt (p : ℚ × ℚ) (ha : p.1 ≠ 0) (v : Val) :
    invAffOpt p (affOpt p v) = v := by
  cases v with
  | none => rfl
  | some q =>
    simp only [affOpt, invAffOpt, Option.map_some', Option.some.injEq]
    rw [add_sub_cancel_right, mul_div_cancel_left₀ _ ha]

lemma map_invAffOpt_map_affOpt (p : ℚ × ℚ) (ha : p.1 ≠ 0) (r : List Val) :
    (r.map (affOpt p)).map (invAffOpt p) = r := by
  rw [List.map_map]
  have h := List.map_congr_left
    (fun v (_ : v ∈ r) => invAffOpt_affOpt p ha v)
  simp only [Function.comp_def]
  rw [h, List.map_id']

/-- Claim C3 (amended): for a fit, invertible affine target scaler and a
nonempty single-column (N, 1) target array `y`,
`inverse_transform (transform y) = y` exactly.  (A nonempty 1-D `y`
cannot pass through `transform` at all — see
`C3_roundtrip_counterexample`.) -/
theorem C3_roundtrip_single_column (cfg : TPCfg) (st : TPState)
    (ht : cfg.hasTarg = true) (ha : st.targP.1 ≠ 0)
    (y : Mat) (hrect : ∀ r ∈ y, r.length = 1) (hne : y ≠ []) :
    (tsTransformTargArr cfg st (Arr.two y)).bind (tsInverseTransform cfg st) =
      some (Arr.two y) := by
  have hT : tsTransformTarg cfg st y =
      y.map (fun r => r.map (affOpt st.targP)) := by
    simp only [tsTransformTarg, ht, if_true]
    exact List.map_congr_left (fun r _ => targRowTransform_eq_map _ r)
  show (tsInverseTransform cfg st) (Arr.two (tsTransformTarg cfg st y)) = _
  rw [hT]
  cases y with
  | nil => exact absurd rfl hne
  | cons r rs =>
    have h1 : (r.map (affOpt st.targP)).length = 1 := by
      rw [List.length_map]
      exact hrect r (by simp)
    simp only [tsInverseTransform, List.map_cons, List.headI, h1, if_true, ht]
    have hhead : (r.map (affOpt st.targP)).map (invAffOpt st.targP) = r :=
      map_invAffOpt_map_affOpt st.targP ha r
    have htail : (rs.map (fun u => u.map (affOpt st.targP))).map
        (fun u => u.map (invAffOpt st.targP)) = rs := by
      rw [List.map_map]
      have h2 := List.map_congr_left (fun u (_ : u ∈ rs) =>
        map_invAffOpt_map_affOpt st.targP ha u)
      simp only [Function.comp_def]
      rw [h2, List.map_id']
    rw [hhead, htail]

/-- Concrete instantiation of `C3_roundtrip_single_column` with scaler
`x ↦ 2x + 3` on the single-column array `[[1]]`. -/
theorem C3_roundtrip_single_column_witness :
    (tsTransformTargArr ⟨true, none, none, [], false, true, id⟩
        ⟨[], (2, 3), [], []⟩ (Arr.two [[some 1]])).bind
      (tsInverseTransform ⟨true, none, none, [], false, true, id⟩
        ⟨[], (2, 3), [], []⟩) = some (Arr.two [[some 1]]) :=
  C3_roundtrip_single_column ⟨true, none, none, [], false, true, id⟩
    ⟨[], (2, 3), [], []⟩ rfl (by norm_num) [[some 1]] (by decide) (by simp)

/-- Claim C4: scalers are fit exactly once, and only on training data.
`TensorPreprocessor.run` pushes exactly one fit per configured scaler,
computed from the processed training tensors (never from the validation
split); `run_inference` leaves the scaler state untouched, as do
`NaivePreprocessor.run_inference`, while `NaivePreprocessor.run` fits its
feature scaler exactly once, on the processed training dataframe. -/
theorem C4_fit_once_on_train :
    (∀ (cfg : TPCfg) (st : TPState) (xt : Tensor3) (yt : Mat)
        (xv : Tensor3) (yv : Mat),
      ((tpRun cfg st xt yt xv yv).2.1).featFitLog =
        (if cfg.hasFeat then [reshapeFeat (runDataVal cfg xt yt).1] else []) ++
          st.featFitLog ∧
      ((tpRun cfg st xt yt xv yv).2.1).targFitLog =
        (if cfg.hasTarg then [reshapeTarg (runDataVal cfg xt yt).2] else []) ++
          st.targFitLog) ∧
    (∀ (cfg : TPCfg) (st : TPState) (x : Tensor3),
      (tpRunInference cfg st x).2.1 = st) ∧
    (∀ (cfg : NCfg) (st : NState) (train valid : NDF),
      ((naiveRun cfg st train valid).2.1).fitLog =
        (if cfg.hasScaler then
          [naiveMatrix cfg (addTimeFeaturesN cfg (ensureTimeId train))]
         else []) ++ st.fitLog) ∧
    (∀ (cfg : NCfg) (st : NState) (df : NDF),
      (naiveRunInference cfg st df).2.1 = st) := by
  have hinf : ∀ (cfg : NCfg) (st : NState) (df : NDF),
      (naiveRunInference cfg st df).2.1 = st := by
    intro cfg st df
    unfold naiveRunInference naiveRunCore
    split_ifs with h1 h2
    · exact h2.elim
    · rfl
    · rfl
  refine ⟨?_, fun cfg st x => rfl, ?_, hinf⟩
  · intro cfg st xt yt xv yv
    simp only [tpRun, tsFit]
    by_cases hf : cfg.hasFeat <;> by_cases hg : cfg.hasTarg <;>
      simp [hf, hg]
  · intro cfg st train valid
    rw [show (naiveRun cfg st train valid).2.1 =
        (naiveRunInference cfg (naiveRunTrain cfg st train).2.1 valid).2.1
      from rfl]
    rw [hinf]
    rw [show (naiveRunTrain cfg st train).2.1 =
        (naiveRunCore cfg st train true).2.1 from rfl]
    unfold naiveRunCore
    by_cases hs : cfg.hasScaler <;> simp [hs]

lemma headI_mem_of_ne {α : Type} [Inhabited α] {l : List α} (h : l ≠ []) :
    l.headI ∈ l := by
  cases l with
  | nil => exact absurd rfl h
  | cons a as => simp [List.headI]

lemma mem_zipWith_append {α : Type} :
    ∀ {l1 l2 : List (List α)} {r : List α},
      r ∈ List.zipWith (fun a b => a ++ b) l1 l2 →
      ∃ a ∈ l1, ∃ b ∈ l2, r = a ++ b := by
  intro l1
  induction l1 with
  | nil => intro l2 r h; simp at h
  | cons a l1 ih =>
    intro l2 r h
    cases l2 with
    | nil => simp at h
    | cons b l2 =>
      simp only [List.zipWith_cons_cons, List.mem_cons] at h
      rcases h with rfl | h
      · exact ⟨a, by simp, b, by simp, rfl⟩
      · obtain ⟨a', ha, b', hb, rfl⟩ := ih h
        exact ⟨a', by simp [ha], b', by simp [hb], rfl⟩

lemma timeProfile_length (f : List Val → Val) (idx : List ℕ) (x : Tensor3) :
    (timeProfile f idx x).length = (x.headI).length := by
  simp [timeProfile]

lemma timeProfile_mem_length (f : List Val → Val) (idx : List ℕ) (x : Tensor3) :
    ∀ row ∈ timeProfile f idx x, row.length = idx.length := by
  intro row hrow
  simp only [timeProfile, List.mem_map] at hrow
  obtain ⟨t, _, rfl⟩ := hrow
  exact List.length_map _ _

lemma addTimeFeaturesT_length (cfg : TPCfg) (x : Tensor3) :
    (addTimeFeaturesT cfg x).length = x.length := by
  unfold addTimeFeaturesT
  split_ifs <;> simp

lemma addTimeFeaturesT_shape (cfg : TPCfg) (x : Tensor3) (T F : ℕ)
    (hsl : ∀ s ∈ x, s.length = T) (hrl : ∀ s ∈ x, ∀ r ∈ s, r.length = F) :
    (∀ s ∈ addTimeFeaturesT cfg x, s.length = T) ∧
    (∀ s ∈ addTimeFeaturesT cfg x, ∀ r ∈ s,
      r.length = F + 2 * cfg.timeIdx.length) := by
  unfold addTimeFeaturesT
  by_cases hidx : cfg.timeIdx = []
  · rw [if_pos hidx]
    exact ⟨hsl, fun s hs r hr => by rw [hrl s hs r hr, hidx]; simp⟩
  · rw [if_neg hidx]
    constructor
    · intro s' hs'
      simp only [List.mem_map] at hs'
      obtain ⟨s, hs, rfl⟩ := hs'
      have hxne : x ≠ [] := by rintro rfl; simp at hs
      have hT' : (x.headI).length = T := hsl _ (headI_mem_of_ne hxne)
      rw [List.length_zipWith, List.length_zipWith, hsl s hs,
        timeProfile_length, timeProfile_length, hT']
      omega
    · intro s' hs' r' hr'
      simp only [List.mem_map] at hs'
      obtain ⟨s, hs, rfl⟩ := hs'
      obtain ⟨ab, hab, c, hc, rfl⟩ := mem_zipWith_append hr'
      obtain ⟨a, ha, b, hb, rfl⟩ := mem_zipWith_append hab
      rw [List.length_append, List.length_append, hrl s hs a ha,
        timeProfile_mem_length _ _ _ b hb, timeProfile_mem_length _ _ _ c hc]
      ring

lemma runDataVal_feat_shape (cfg : TPCfg) (x : Tensor3) (y : Mat) (T F : ℕ)
    (hsl : ∀ s ∈ x, s.length = T) (hrl : ∀ s ∈ x, ∀ r ∈ s, r.length = F) :
    (∀ s ∈ (runDataVal cfg x y).1, s.length = T) ∧
    (∀ s ∈ (runDataVal cfg x y).1, ∀ r ∈ s,
      r.length = F + 2 * cfg.timeIdx.length) ∧
    (runDataVal cfg x y).1.length = x.length := by
  have hA := addTimeFeaturesT_shape cfg x T F hsl hrl
  have hval : (runDataVal cfg x y).1 = fillNa3 (addTimeFeaturesT cfg x) := rfl
  refine ⟨?_, ?_, ?_⟩
  · intro s hs
    rw [hval] at hs
    simp only [fillNa3, List.mem_map] at hs
    obtain ⟨s0, hs0, rfl⟩ := hs
    rw [show (fillNa2 s0).length = s0.length from List.length_map _ _]
    exact hA.1 s0 hs0
  · intro s hs r hr
    rw [hval] at hs
    simp only [fillNa3, List.mem_map] at hs
    obtain ⟨s0, hs0, rfl⟩ := hs
    simp only [fillNa2, List.mem_map] at hr
    obtain ⟨r0, hr0, rfl⟩ := hr
    rw [show (fillNa1 r0).length = r0.length from List.length_map _ _]
    exact hA.2 s0 hs0 r0 hr0
  · rw [hval]
    show (List.map fillNa2 (addTimeFeaturesT cfg x)).length = _
    rw [List.length_map, addTimeFeaturesT_length]

lemma tsTransformFeat_shape (cfg : TPCfg) (st : TPState) (x : Tensor3) (G : ℕ)
    (hrl : ∀ s ∈ x, ∀ r ∈ s, r.length = G)
    (hp : cfg.hasFeat = true → st.featP.length = G) :
    ∀ s ∈ tsTransformFeat cfg st x, ∀ r ∈ s, r.length = G := by
  intro s hs r hr
  unfold tsTransformFeat at hs
  by_cases hf : cfg.hasFeat
  · rw [if_pos hf] at hs
    obtain ⟨s0, hs0, rfl⟩ := List.mem_map.mp hs
    simp only [transform2, List.mem_map] at hr
    obtain ⟨r0, hr0, rfl⟩ := hr
    rw [List.length_zipWith, hp hf, hrl s0 hs0 r0 hr0]
    omega
  · rw [if_neg hf] at hs
    exact hrl s hs r hr

lemma famFitFeat_length (d : Mat) : (famFitFeat d).length = (d.headI).length := by
  simp [famFitFeat]

lemma reshapeFeat_headI_length (x : Tensor3) (F : ℕ) (hne : x ≠ [])
    (hsne : ∀ s ∈ x, s ≠ []) (hrl : ∀ s ∈ x, ∀ r ∈ s, r.length = F) :
    ((reshapeFeat x).headI).length = F := by
  cases x with
  | nil => exact absurd rfl hne
  | cons s rest =>
    cases s with
    | nil => exact absurd rfl (hsne [] (by simp))
    | cons r rs =>
      show (((r :: rs) :: rest : Tensor3).flatten.headI).length = F
      rw [List.flatten_cons]
      simp only [List.cons_append, List.headI]
      exact hrl (r :: rs) (by simp) r (by simp)

lemma tsFit_featP (cfg : TPCfg) (st : TPState) (x : Tensor3) (y : Mat)
    (hf : cfg.hasFeat = true) :
    (tsFit cfg st x y).featP = famFitFeat (reshapeFeat x) := by
  simp only [tsFit, hf, if_true]
  by_cases hg : cfg.hasTarg <;> simp [hg]

lemma trainFit_featP_length (cfg : TPCfg) (st : TPState) (x : Tensor3)
    (y : Mat) (T F : ℕ) (hne : x ≠ []) (hsne : ∀ s ∈ x, s ≠ [])
    (hsl : ∀ s ∈ x, s.length = T) (hrl : ∀ s ∈ x, ∀ r ∈ s, r.length = F)
    (hf : cfg.hasFeat = true) :
    (tsFit cfg st (runDataVal cfg x y).1 (runDataVal cfg x y).2).featP.length =
      F + 2 * cfg.timeIdx.length := by
  have hR := runDataVal_feat_shape cfg x y T F hsl hrl
  have hT : 0 < T := by
    cases x with
    | nil => exact absurd rfl hne
    | cons s rest =>
      have h1 : s.length = T := hsl s (by simp)
      have h2 : s ≠ [] := hsne s (by simp)
      rw [← h1]
      exact List.length_pos.mpr h2
  have hne2 : (runDataVal cfg x y).1 ≠ [] := by
    intro h
    apply hne
    have := hR.2.2
    rw [h] at this
    exact List.length_eq_zero.mp this.symm
  have hsne2 : ∀ s ∈ (runDataVal cfg x y).1, s ≠ [] := by
    intro s hs
    have := hR.1 s hs
    intro hcon
    rw [hcon] at this
    simp at this
    omega
  rw [tsFit_featP cfg st _ _ hf, famFitFeat_length]
  exact reshapeFeat_headI_length _ _ hne2 hsne2 hR.2.1

/-- Claim C6: for a rectangular (N, T, F) feature tensor with N, T ≥ 1
and `k = len(time_id_features_idx)`, the feature tensors produced by
`TensorPreprocessor.run_train` and by `run` (both splits) have last-axis
size `F + 2*k`: the per-timestep cross-sample nanmean and nanstd of the
selected columns are broadcast over the sample axis and concatenated
onto the feature axis, and the subsequent zero-fill and scaler transform
preserve that width. -/
theorem C6_time_feature_width (cfg : TPCfg) (st : TPState)
    (x : Tensor3) (y : Mat) (xv : Tensor3) (yv : Mat) (T Tv F : ℕ)
    (hne : x ≠ []) (hsne : ∀ s ∈ x, s ≠ [])
    (hsl : ∀ s ∈ x, s.length = T) (hrl : ∀ s ∈ x, ∀ r ∈ s, r.length = F)
    (hvsl : ∀ s ∈ xv, s.length = Tv)
    (hvrl : ∀ s ∈ xv, ∀ r ∈ s, r.length = F) :
    (∀ s ∈ (tpRunTrain cfg st x y).1.1, ∀ r ∈ s,
      r.length = F + 2 * cfg.timeIdx.length) ∧
    (∀ s ∈ (tpRun cfg st x y xv yv).1.xTrain, ∀ r ∈ s,
      r.length = F + 2 * cfg.timeIdx.length) ∧
    (∀ s ∈ (tpRun cfg st x y xv yv).1.xValid, ∀ r ∈ s,
      r.length = F + 2 * cfg.timeIdx.length) := by
  have hR := runDataVal_feat_shape cfg x y T F hsl hrl
  have hRv := runDataVal_feat_shape cfg xv yv Tv F hvsl hvrl
  have hfit : cfg.hasFeat = true →
      (tsFit cfg st (runDataVal cfg x y).1
        (runDataVal cfg x y).2).featP.length =
        F + 2 * cfg.timeIdx.length :=
    fun hf => trainFit_featP_length cfg st x y T F hne hsne hsl hrl hf
  exact ⟨tsTransformFeat_shape cfg _ _ _ hR.2.1 hfit,
    tsTransformFeat_shape cfg _ _ _ hR.2.1 hfit,
    tsTransformFeat_shape cfg _ _ _ hRv.2.1 hfit⟩

/-- Concrete instantiation of `C6_time_feature_width` at a 1×1×1 tensor
with no configured time-feature indices: width `1 = 1 + 2·0`. -/
theorem C6_time_feature_width_witness :
    ([some (1 : ℚ)] : List Val).length = 1 + 2 * ([] : List ℕ).length :=
  (C6_time_feature_width ⟨true, none, none, [], false, false, id⟩
    ⟨[], (1, 0), [], []⟩ [[[some 1]]] [[some 1]] [[[some 2]]] [[some 2]]
    1 1 1 (by simp) (by decide) (by decide) (by decide) (by decide)
    (by decide)).1 [[some 1]] (by decide) [some 1] (by decide)

/-- Claim C10: `TensorPreprocessor.run_inference` never appends time
features — its output keeps last-axis size `F` (it only zero-fills NaNs
and applies the fitted transform), while `run_train` on the same
configuration produces last-axis size `F + 2*len(time_id_features_idx)`. -/
theorem C10_run_inference_width (cfg : TPCfg) (st : TPState) (x : Tensor3)
    (F : ℕ) (hrl : ∀ s ∈ x, ∀ r ∈ s, r.length = F)
    (hp : cfg.hasFeat = true → st.featP.length = F)
    (xt : Tensor3) (yt : Mat) (T : ℕ) (htne : xt ≠ [])
    (htsne : ∀ s ∈ xt, s ≠ []) (htsl : ∀ s ∈ xt, s.length = T)
    (htrl : ∀ s ∈ xt, ∀ r ∈ s, r.length = F) :
    (∀ s ∈ (tpRunInference cfg st x).1, ∀ r ∈ s, r.length = F) ∧
    (∀ s ∈ (tpRunTrain cfg st xt yt).1.1, ∀ r ∈ s,
      r.length = F + 2 * cfg.timeIdx.length) := by
  constructor
  · apply tsTransformFeat_shape cfg st (fillNa3 x) F ?_ hp
    intro s hs r hr
    simp only [fillNa3, List.mem_map] at hs
    obtain ⟨s0, hs0, rfl⟩ := hs
    simp only [fillNa2, List.mem_map] at hr
    obtain ⟨r0, hr0, rfl⟩ := hr
    rw [show (fillNa1 r0).length = r0.length from List.length_map _ _]
    exact hrl s0 hs0 r0 hr0
  · exact tsTransformFeat_shape cfg _ _ _
      (runDataVal_feat_shape cfg xt yt T F htsl htrl).2.1
      (fun hf => trainFit_featP_length cfg st xt yt T F htne htsne htsl
        htrl hf)

/-- Concrete instantiation of `C10_run_inference_width` with
`time_id_features_idx = [0]`: the inference output keeps width 1. -/
theorem C10_run_inference_width_witness :
    ([some (5 : ℚ)] : List Val).length = 1 :=
  (C10_run_inference_width ⟨true, none, none, [0], false, false, id⟩
    ⟨[], (1, 0), [], []⟩ [[[some 5]]] 1 (by decide)
    (fun h => absurd h (by decide)) [[[some 1]]] [[some 1]] 1 (by simp)
    (by decide) (by decide) (by decide)).1 [[some 5]] (by decide)
    [some 5] (by decide)

/-- Claim C7 as stated is false: `TensorPreprocessor.run_train` calls
`_run_data` with `copy=False`, whose crop masks write into the caller's
target array in place — with `crop_high=1` a caller buffer `[[5]]` holds
`[[1]]` after the call. -/
theorem C7_purity_counterexample :
    (tpRunTrain ⟨true, none, some 1, [], false, false, id⟩
      ⟨[], (1, 0), [], []⟩ [[[some 0]]] [[some 5]]).2.2.2 ≠ [[some 5]] := by
  decide

lemma ensureTimeId_hasTimeId (df : NDF) :
    (ensureTimeId df).hasTimeId = true := by
  unfold ensureTimeId
  split_ifs with h
  · exact h
  · rfl

lemma ensureTimeId_timeId (df : NDF) :
    (ensureTimeId df).timeId =
      if df.hasTimeId then df.timeId else df.rowId := by
  unfold ensureTimeId
  split_ifs <;> rfl

/-- Claim C7 (amended): preprocessor operations are pure except for the
scaler fit and the in-place buffer writes.  `TensorPreprocessor.run`
(`copy=True`) leaves both caller buffers exactly as supplied;
`run_train`/`_run_data` with `copy=False` write the target NaN-fill and
crops into the caller's `y` (and the feature NaN-fill into the caller's
`x` exactly when no time features are configured, since
`_add_time_features` otherwise rebinds `x`); `run_inference` zero-fills
the caller's `x` in place; `NaivePreprocessor.run_train` crops the
caller's target column in place through the `.values` view, and `_run`
writes a derived `time_id` column into the caller's dataframe. -/
theorem C7_mutation_behaviour :
    (∀ (cfg : TPCfg) (st : TPState) (xt : Tensor3) (yt : Mat)
        (xv : Tensor3) (yv : Mat),
      (tpRun cfg st xt yt xv yv).2.2 = ((xt, yt), (xv, yv))) ∧
    (∀ (cfg : TPCfg) (st : TPState) (x : Tensor3) (y : Mat),
      (tpRunTrain cfg st x y).2.2 =
        ((if cfg.timeIdx = [] then fillNa3 x else x),
          crop2 cfg.cropLow cfg.cropHigh
            (if cfg.fillNaTarget then fillNa2 y else y))) ∧
    (∀ (cfg : TPCfg) (st : TPState) (x : Tensor3),
      (tpRunInference cfg st x).2.2 = fillNa3 x) ∧
    (∀ (cfg : NCfg) (st : NState) (df : NDF),
      ((naiveRunTrain cfg st df).2.2).target =
        some (cropTargets cfg.cropLow cfg.cropHigh (df.target.getD [])) ∧
      ((naiveRunTrain cfg st df).2.2).hasTimeId = true ∧
      ((naiveRunTrain cfg st df).2.2).timeId =
        (if df.hasTimeId then df.timeId else df.rowId)) := by
  refine ⟨fun cfg st xt yt xv yv => rfl, fun cfg st x y => rfl,
    fun cfg st x => rfl, fun cfg st df => ⟨?_, ?_, ?_⟩⟩
  · show some (cropTargets cfg.cropLow cfg.cropHigh
        (((naiveRunCore cfg st df true).2.2).target.getD [])) = _
    rw [naiveRunCore_df, ensureTimeId_target]
  · show ((naiveRunCore cfg st df true).2.2).hasTimeId = true
    rw [naiveRunCore_df]
    exact ensureTimeId_hasTimeId df
  · show ((naiveRunCore cfg st df true).2.2).timeId = _
    rw [naiveRunCore_df]
    exact ensureTimeId_timeId df
